/-
Verification of the multi-tier time-series aggregation and adaptive
data-reduction subsystem of the harumiki-farm-v2 repository.

Each definition below is a shallow embedding of a Python function from the
repository (strawberry/services.py, strawberry/views.py,
strawberry/utils/data_aggregation.py, strawberry/models.py,
strawberry/models_timeseries.py).  Python floats are modelled as rationals
(ℚ); Python's `round(x, 2)` is modelled as half-up rounding on rationals
(`round2` below); dictionaries are modelled as association lists.
-/

import Mathlib

set_option maxRecDepth 20000

namespace Harumiki

/-! ## Generic association-list helpers (model of Python dict operations) -/

/-- Lookup in an association list: the value of the first pair whose key
matches, mirroring Python `d.get(k)`. -/
def lookupKV {α : Type} (l : List (String × α)) (k : String) : Option α :=
  match l with
  | [] => none
  | (k', v) :: rest => if k' = k then some v else lookupKV rest k

/-- Insert-or-overwrite in an association list, mirroring Python
`d[k] = v`. -/
def insertKV {α : Type} (l : List (String × α)) (k : String) (v : α) :
    List (String × α) :=
  match l with
  | [] => [(k, v)]
  | (k', v') :: rest =>
      if k' = k then (k', v) :: rest else (k', v') :: insertKV rest k v

theorem lookupKV_insertKV_self {α : Type} (l : List (String × α)) (k : String)
    (v : α) : lookupKV (insertKV l k v) k = some v := by
  induction l with
  | nil => simp [insertKV, lookupKV]
  | cons p rest ih =>
      obtain ⟨k', v'⟩ := p
      by_cases h : k' = k
      · simp [insertKV, lookupKV, h]
      · simp [insertKV, lookupKV, h, ih]

theorem lookupKV_insertKV_ne {α : Type} (l : List (String × α)) (k k' : String)
    (v : α) (h : k ≠ k') : lookupKV (insertKV l k v) k' = lookupKV l k' := by
  induction l with
  | nil => simp [insertKV, lookupKV, h]
  | cons p rest ih =>
      obtain ⟨k₀, v₀⟩ := p
      by_cases h₀ : k₀ = k
      · subst h₀
        simp [insertKV, lookupKV, h]
      · simp only [insertKV, if_neg h₀]
        by_cases h₁ : k₀ = k'
        · simp [lookupKV, h₁]
        · simp [lookupKV, h₁, ih]

theorem insertKV_keys {α : Type} (l : List (String × α)) (k : String) (v : α) :
    (insertKV l k v).map Prod.fst =
      if k ∈ l.map Prod.fst then l.map Prod.fst else l.map Prod.fst ++ [k] := by
  induction l with
  | nil => simp [insertKV]
  | cons p rest ih =>
      obtain ⟨k₀, v₀⟩ := p
      by_cases h₀ : k₀ = k
      · subst h₀
        simp [insertKV]
      · have h₀' : ¬ k = k₀ := fun h => h₀ h.symm
        simp only [insertKV, if_neg h₀, List.map_cons]
        rw [ih]
        by_cases hmem : k ∈ rest.map Prod.fst
        · simp [hmem, h₀']
        · simp [hmem, h₀']

theorem lookupKV_isSome_iff_mem {α : Type} (l : List (String × α))
    (k : String) : (lookupKV l k).isSome ↔ k ∈ l.map Prod.fst := by
  induction l with
  | nil => simp [lookupKV]
  | cons p rest ih =>
      obtain ⟨k₀, v₀⟩ := p
      by_cases h₀ : k₀ = k
      · simp [lookupKV, h₀]
      · have h₀' : ¬ k = k₀ := fun h => h₀ h.symm
        simp [lookupKV, h₀, h₀', ih]

theorem insertKV_nodup_keys {α : Type} (l : List (String × α)) (k : String)
    (v : α) (h : (l.map Prod.fst).Nodup) :
    ((insertKV l k v).map Prod.fst).Nodup := by
  rw [insertKV_keys]
  by_cases hmem : k ∈ l.map Prod.fst
  · simpa [hmem] using h
  · simp only [hmem, if_false]
    simpa [List.nodup_append, hmem] using h

/-! ## Rounding

Python's `round(x, 2)` on floats; modelled as half-up rounding to two
decimal places on rationals. -/

/-- Round a rational to two decimal places. -/
def round2 (q : ℚ) : ℚ := ((round (q * 100) : ℤ) : ℚ) / 100

theorem round2_nonneg (q : ℚ) (h : 0 ≤ q) : 0 ≤ round2 q := by
  unfold round2
  have hx : (0 : ℚ) ≤ q * 100 := by positivity
  have hlb := sub_half_lt_round (q * 100)
  have h1 : (-1/2 : ℚ) < ((round (q * 100) : ℤ) : ℚ) := by linarith
  have h2 : (0 : ℤ) ≤ round (q * 100) := by
    by_contra hc
    push_neg at hc
    have hle : round (q * 100) ≤ -1 := by omega
    have : ((round (q * 100) : ℤ) : ℚ) ≤ -1 := by exact_mod_cast hle
    linarith
  have h3 : (0 : ℚ) ≤ ((round (q * 100) : ℤ) : ℚ) := by exact_mod_cast h2
  exact div_nonneg h3 (by norm_num)

/-! ## Storage-tier routing (claim C10)

Two independent implementations in the source pick the storage tier for a
requested time range:
* `SensorDataService.get_historical_data` with `aggregation_level='auto'`
  (strawberry/services.py, lines 104-127);
* `TimeSeriesManager.get_aggregated_data`
  (strawberry/models_timeseries.py, lines 221-242).
Durations are modelled in seconds (`timedelta` comparisons). -/

inductive Tier where
  | realtime
  | fiveMin
  | hourly
  | daily
deriving DecidableEq, Repr

/-- Tier selection of `SensorDataService.get_historical_data` for
`aggregation_level='auto'`: ≤ 2 hours → realtime, ≤ 7 days → 5-minute,
≤ 90 days → hourly, otherwise daily.  The argument is the requested
duration in seconds. -/
def get_historical_data_auto_tier (durationSec : ℚ) : Tier :=
  if durationSec ≤ 2 * 3600 then Tier.realtime
  else if durationSec ≤ 7 * 86400 then Tier.fiveMin
  else if durationSec ≤ 90 * 86400 then Tier.hourly
  else Tier.daily

/-- Tier selection of `TimeSeriesManager.get_aggregated_data`:
≤ 7 days → realtime, ≤ 90 days → 5-minute, ≤ 365 days → hourly,
otherwise daily. -/
def get_aggregated_data_tier (durationSec : ℚ) : Tier :=
  if durationSec ≤ 7 * 86400 then Tier.realtime
  else if durationSec ≤ 90 * 86400 then Tier.fiveMin
  else if durationSec ≤ 365 * 86400 then Tier.hourly
  else Tier.daily

/-! ## Daily data quality (claim C9)

`DataQualityService.calculate_daily_quality` (strawberry/services.py,
lines 580-635).  The database aggregate over `RealtimeData` for the date is
modelled by its resulting counts. -/

structure QualityCounts where
  actual_count : ℕ
  good_count : ℕ
  suspect_count : ℕ
  bad_count : ℕ
  missing_count : ℕ
deriving DecidableEq, Repr

structure QualityResult where
  expected_count : ℕ
  actual_count : ℕ
  quality_score : ℚ
  good_count : ℕ
  suspect_count : ℕ
  bad_count : ℕ
  missing_count : ℕ
  /-- `estimated_missing` of the single coarse missing period emitted when
  the actual count falls short of the expected count, `none` otherwise. -/
  estimated_missing : Option ℕ
deriving DecidableEq, Repr

/-- Model of `DataQualityService.calculate_daily_quality`: fixed expected
count of 24 × 60 = 1440 samples, `quality_score = actual / expected × 100`
rounded to two decimals, and a single coarse missing period whenever the
actual count falls short. -/
def calculate_daily_quality (q : QualityCounts) : QualityResult :=
  let expected_count : ℕ := 24 * 60
  let quality_score : ℚ :=
    if 0 < expected_count then (q.actual_count : ℚ) / (expected_count : ℚ) * 100
    else 0
  { expected_count := expected_count
    actual_count := q.actual_count
    quality_score := round2 quality_score
    good_count := q.good_count
    suspect_count := q.suspect_count
    bad_count := q.bad_count
    missing_count := q.missing_count
    estimated_missing :=
      if q.actual_count < expected_count then some (expected_count - q.actual_count)
      else none }

/-! ## Claim C10 -/

/-- C10 counterexample: for a 3-day range the two tier-routing
implementations disagree — `get_historical_data` with `'auto'` picks the
5-minute tier while `TimeSeriesManager.get_aggregated_data` picks the raw
(realtime) tier. -/
theorem c10_counterexample :
    get_historical_data_auto_tier (3 * 86400) = Tier.fiveMin ∧
    get_aggregated_data_tier (3 * 86400) = Tier.realtime ∧
    get_historical_data_auto_tier (3 * 86400) ≠
      get_aggregated_data_tier (3 * 86400) := by
  have h1 : get_historical_data_auto_tier (3 * 86400) = Tier.fiveMin := by
    unfold get_historical_data_auto_tier
    norm_num
  have h2 : get_aggregated_data_tier (3 * 86400) = Tier.realtime := by
    unfold get_aggregated_data_tier
    norm_num
  refine ⟨h1, h2, ?_⟩
  rw [h1, h2]
  decide

/-- C10 (amended): the two tier-routing implementations agree exactly when
the requested duration is at most 2 hours (both pick the raw tier) or
strictly greater than 365 days (both pick the daily tier); for every
duration strictly between, they disagree. -/
theorem c10_amended (durationSec : ℚ) :
    get_historical_data_auto_tier durationSec =
      get_aggregated_data_tier durationSec ↔
    (durationSec ≤ 2 * 3600 ∨ 365 * 86400 < durationSec) := by
  unfold get_historical_data_auto_tier get_aggregated_data_tier
  by_cases h1 : durationSec ≤ 2 * 3600
  · have h2 : durationSec ≤ 7 * 86400 := le_trans h1 (by norm_num)
    simp [h1, h2]
  · by_cases h2 : durationSec ≤ 7 * 86400
    · have h3 : durationSec ≤ 90 * 86400 := le_trans h2 (by norm_num)
      have h4 : ¬ (365 * 86400 : ℚ) < durationSec := by
        push_neg
        exact le_trans h2 (by norm_num)
      simp [h1, h2, h3, h4]
    · by_cases h3 : durationSec ≤ 90 * 86400
      · have h4 : ¬ (365 * 86400 : ℚ) < durationSec := by
          push_neg
          exact le_trans h3 (by norm_num)
        simp [h1, h2, h3, h4]
      · by_cases h4 : durationSec ≤ 365 * 86400
        · simp [h1, h2, h3, h4, not_lt.mpr h4]
        · simp [h1, h2, h3, h4, not_le.mp h4]

/-- C10 amended-theorem witness: a one-hour range routes to the same
(realtime) tier in both implementations. -/
theorem c10_amended_witness :
    get_historical_data_auto_tier 3600 = get_aggregated_data_tier 3600 :=
  (c10_amended 3600).mpr (Or.inl (by norm_num))

/-! ## Claim C9 -/

/-- C9: `calculate_daily_quality` sets `expected_count` to the fixed policy
value 1440, sets `quality_score` to `actual/expected × 100` (rounded to two
decimals) with no upper cap, and consequently every input with
`actual_count > 1440` yields a `quality_score` strictly above 100. -/
theorem c9_quality_score_uncapped (q : QualityCounts)
    (h : 1440 < q.actual_count) :
    (calculate_daily_quality q).expected_count = 1440 ∧
    (calculate_daily_quality q).quality_score =
      round2 ((q.actual_count : ℚ) / 1440 * 100) ∧
    100 < (calculate_daily_quality q).quality_score := by
  have hval : (calculate_daily_quality q).quality_score =
      round2 ((q.actual_count : ℚ) / 1440 * 100) := by
    simp only [calculate_daily_quality]
    norm_num
  refine ⟨rfl, hval, ?_⟩
  rw [hval]
  unfold round2
  have h' : (1441 : ℚ) ≤ (q.actual_count : ℚ) := by exact_mod_cast h
  have hx : (10006.5 : ℚ) ≤ (q.actual_count : ℚ) / 1440 * 100 * 100 := by
    rw [div_mul_eq_mul_div, div_mul_eq_mul_div, le_div_iff₀ (by norm_num : (0:ℚ) < 1440)]
    nlinarith
  have hlb := sub_half_lt_round ((q.actual_count : ℚ) / 1440 * 100 * 100)
  have h10006 : (10006 : ℚ) < ((round ((q.actual_count : ℚ) / 1440 * 100 * 100) : ℤ) : ℚ) := by
    linarith
  have hz : (10006 : ℤ) < round ((q.actual_count : ℚ) / 1440 * 100 * 100) := by
    exact_mod_cast h10006
  have hz' : (10007 : ℚ) ≤ ((round ((q.actual_count : ℚ) / 1440 * 100 * 100) : ℤ) : ℚ) := by
    exact_mod_cast hz
  have hmul100 : ((q.actual_count : ℚ) / 1440 * 100) * 100 =
      (q.actual_count : ℚ) / 1440 * 100 * 100 := by ring
  rw [hmul100]
  linarith

/-- C9 witness: a day with 2880 samples (double the policy rate) scores
above 100. -/
theorem c9_quality_score_uncapped_witness :
    (calculate_daily_quality ⟨2880, 2880, 0, 0, 0⟩).expected_count = 1440 ∧
    (calculate_daily_quality ⟨2880, 2880, 0, 0, 0⟩).quality_score =
      round2 ((2880 : ℚ) / 1440 * 100) ∧
    100 < (calculate_daily_quality ⟨2880, 2880, 0, 0, 0⟩).quality_score :=
  c9_quality_score_uncapped ⟨2880, 2880, 0, 0, 0⟩ (by decide)

/-! ## DLI calculation (claim C1)

`AggregationService.calculate_dli` (strawberry/services.py, lines 531-573).
The Django aggregate `Avg('avg_value')` over the `RecentData` rows of the
06:00-18:00 photoperiod window is modelled by the list of those rows'
`avg_value` readings.  The Python guard
`if ppfd_data['avg_ppfd'] and ppfd_data['sample_count'] > 0:` tests the
*truthiness* of the average: `None` (no rows) and `0.0` are both falsy. -/

/-- Model of `AggregationService.calculate_dli`: `readings` are the
`avg_value`s of the 5-minute rows inside the photoperiod window. -/
def calculate_dli (readings : List ℚ) : Option ℚ :=
  let avg_ppfd : Option ℚ :=
    if readings.length = 0 then none
    else some (readings.sum / (readings.length : ℚ))
  let sample_count := readings.length
  match avg_ppfd with
  | none => none
  | some a =>
      if a ≠ 0 ∧ 0 < sample_count then some (round2 (a * 43200 / 1000000))
      else none

/-! ## Ingest normalization and quality flags (claim C4)

`Sensor.get_calibrated_value` (strawberry/models.py, lines 74-78),
`APIDataService.fetch_latest_data` (strawberry/services.py, lines 292-304)
and `APIDataService.fetch_historical_data` (strawberry/services.py, lines
350-371).  A record's `data` dict is modelled as an association list. -/

structure SensorCfg where
  calibration_multiplier : ℚ
  calibration_offset : ℚ
  min_value : Option ℚ
  max_value : Option ℚ
  api_value_key : String
deriving DecidableEq, Repr

/-- Model of `Sensor.get_calibrated_value`. -/
def get_calibrated_value (s : SensorCfg) (raw_value : Option ℚ) : Option ℚ :=
  match raw_value with
  | none => none
  | some v => some (v * s.calibration_multiplier + s.calibration_offset)

/-- Model of the per-record normalization in
`APIDataService.fetch_historical_data`: a null `data` payload yields
`(None, 'missing')`; otherwise the value under the sensor's
`api_value_key` is calibrated and flagged `'good'` when present, `'bad'`
when absent. -/
def fetch_historical_record_flag (s : SensorCfg)
    (record_data : Option (List (String × ℚ))) : Option ℚ × String :=
  match record_data with
  | none => (none, "missing")
  | some d =>
      let raw_value := lookupKV d s.api_value_key
      let processed_value := get_calibrated_value s raw_value
      (processed_value, if processed_value.isSome then "good" else "bad")

/-- Model of the flag assignment in `APIDataService.fetch_latest_data`:
`'good'` when the calibrated value is non-null, else `'missing'`. -/
def fetch_latest_flag (s : SensorCfg) (raw_value : Option ℚ) :
    Option ℚ × String :=
  let processed_value := get_calibrated_value s raw_value
  (processed_value, if processed_value.isSome then "good" else "missing")

/-! ## Claim C1 -/

/-- C1 counterexample: a window whose only reading is exactly 0 makes
`calculate_dli` return `none` (the claim requires 0 there), and a window
with one small positive reading (0.01) returns `some 0` (the claim
requires a positive value there). -/
theorem c1_counterexample :
    calculate_dli [0] = none ∧
    calculate_dli [1 / 100] = some 0 ∧ (0 : ℚ) < 1 / 100 := by
  refine ⟨?_, ?_, by norm_num⟩
  · norm_num [calculate_dli]
  · norm_num [calculate_dli, round2, round_eq]

/-- C1 (amended): `calculate_dli` returns `none` exactly when the readings
sum to zero — so both an empty window and an all-zero window yield `none`,
and a caller cannot distinguish "no light" from "no data"; when the sum is
nonzero it returns the mean scaled by 43200/1,000,000 and rounded to two
decimals, which is nonnegative (but possibly 0) whenever all readings are
nonnegative. -/
theorem c1_amended (readings : List ℚ) :
    (calculate_dli readings = none ↔ readings.sum = 0) ∧
    (readings.sum ≠ 0 →
      calculate_dli readings =
        some (round2 (readings.sum / (readings.length : ℚ) * 43200 / 1000000))) ∧
    ((∀ r ∈ readings, 0 ≤ r) → ∀ v, calculate_dli readings = some v → 0 ≤ v) := by
  rcases eq_or_ne readings [] with hnil | hne
  · subst hnil
    refine ⟨by simp [calculate_dli], by simp, ?_⟩
    intro _ v hv
    simp [calculate_dli] at hv
  · have hlen : readings.length ≠ 0 := by
      simpa [List.length_eq_zero] using hne
    have hlenq : ((readings.length : ℚ)) ≠ 0 := by
      exact_mod_cast hlen
    have hpos : 0 < readings.length := Nat.pos_of_ne_zero hlen
    refine ⟨?_, ?_, ?_⟩
    · constructor
      · intro hnone
        by_contra hsum
        have havg : readings.sum / (readings.length : ℚ) ≠ 0 :=
          div_ne_zero hsum hlenq
        simp [calculate_dli, hlen, havg, hpos] at hnone
      · intro hsum
        have havg : readings.sum / (readings.length : ℚ) = 0 := by
          simp [hsum]
        simp [calculate_dli, hlen, havg]
    · intro hsum
      have havg : readings.sum / (readings.length : ℚ) ≠ 0 :=
        div_ne_zero hsum hlenq
      simp [calculate_dli, hlen, havg, hpos]
    · intro hnn v hv
      have hsumnn : 0 ≤ readings.sum := List.sum_nonneg hnn
      by_cases havg : readings.sum / (readings.length : ℚ) = 0
      · simp [calculate_dli, hlen, havg] at hv
      · simp [calculate_dli, hlen, havg, hpos] at hv
        subst hv
        apply round2_nonneg
        have h1 : 0 ≤ readings.sum / (readings.length : ℚ) := by positivity
        positivity

/-- C1 witness: the spec's own example — readings 200, 400, 600 in the
photoperiod window give mean 400 and DLI 400 × 43200 / 1,000,000 = 17.28
(= 432/25). -/
theorem c1_amended_witness :
    calculate_dli [200, 400, 600] = some (432 / 25) := by
  have h := (c1_amended [200, 400, 600]).2.1 (by norm_num)
  rw [h]
  norm_num [round2, round_eq]

/-! ## Claim C4 -/

/-- Concrete sensor configuration for the C4 counterexample: calibration
is the identity and the valid range is [0, 100]. -/
def c4cfg : SensorCfg :=
  { calibration_multiplier := 1
    calibration_offset := 0
    min_value := some 0
    max_value := some 100
    api_value_key := "val" }

/-- C4 counterexample: a raw value of 1000 — far above the sensor type's
`max_value` of 100 — is flagged `'good'` by the historical-ingest path,
not `'suspect'` as the claim requires. -/
theorem c4_counterexample :
    fetch_historical_record_flag c4cfg (some [("val", 1000)]) =
      (some 1000, "good") ∧
    c4cfg.max_value = some 100 ∧ ¬ ((1000 : ℚ) ≤ 100) := by
  refine ⟨?_, rfl, by norm_num⟩
  norm_num [fetch_historical_record_flag, get_calibrated_value, c4cfg, lookupKV]

/-- C4 (amended): the ingest paths never consult the sensor type's
`[min_value, max_value]` range and never emit `'suspect'`.  Historical
ingest flags a record `'missing'` when its `data` payload is null, `'bad'`
when the payload lacks the sensor's value key (calibrated value null), and
`'good'` otherwise — including for values outside the range; the output is
invariant under changing the range bounds.  The latest-value path flags
`'good'` when the calibrated value is non-null and `'missing'` otherwise. -/
theorem c4_amended (s : SensorCfg) (record_data : Option (List (String × ℚ)))
    (raw_latest : Option ℚ) :
    (record_data = none →
      fetch_historical_record_flag s record_data = (none, "missing")) ∧
    (∀ d, record_data = some d →
      fetch_historical_record_flag s record_data =
        (get_calibrated_value s (lookupKV d s.api_value_key),
         if (get_calibrated_value s (lookupKV d s.api_value_key)).isSome
         then "good" else "bad")) ∧
    (fetch_historical_record_flag s record_data).2 ≠ "suspect" ∧
    (fetch_latest_flag s raw_latest).2 ≠ "suspect" ∧
    (∀ m₁ M₁ m₂ M₂,
      fetch_historical_record_flag
        { s with min_value := m₁, max_value := M₁ } record_data =
      fetch_historical_record_flag
        { s with min_value := m₂, max_value := M₂ } record_data) := by
  refine ⟨?_, ?_, ?_, ?_, ?_⟩
  · intro h
    subst h
    rfl
  · intro d h
    subst h
    rfl
  · cases record_data with
    | none => simp [fetch_historical_record_flag]
    | some d =>
        by_cases h : (get_calibrated_value s (lookupKV d s.api_value_key)).isSome <;>
          simp [fetch_historical_record_flag, h]
  · by_cases h : (get_calibrated_value s raw_latest).isSome <;>
      simp [fetch_latest_flag, h]
  · intro m₁ M₁ m₂ M₂
    cases record_data with
    | none => rfl
    | some d => rfl

/-- C4 witness: a null record payload is normalized to `(None, 'missing')`. -/
theorem c4_amended_witness :
    fetch_historical_record_flag c4cfg none = (none, "missing") :=
  (c4_amended c4cfg none none).1 rfl

/-! ## Smart sampling (claim C5)

`apply_smart_sampling` (strawberry/views.py, lines 172-203).  The Python
code collects `set([0, total_points - 1])` together with
`range(0, total_points, interval)` and sorts the result; this equals
`List.range total` filtered by membership in that set, which is how the
index list is modelled here. -/

structure SeriesData where
  datetimes : List String
  values : List ℚ
deriving DecidableEq, Repr

/-- The sorted set of sampled indices built by `apply_smart_sampling`:
`{0, total - 1}` together with every multiple of
`interval = max 1 (total // target)`. -/
def keptIndices (total target_points : ℕ) : List ℕ :=
  let interval := max 1 (total / target_points)
  (List.range total).filter (fun i => i = 0 ∨ i = total - 1 ∨ i % interval = 0)

/-- Model of `apply_smart_sampling`: below the budget the data is returned
unchanged; otherwise the values (and datetimes, when present) at the kept
indices are extracted. -/
def apply_smart_sampling (data : SeriesData) (target_points : ℕ) : SeriesData :=
  if data.values.length ≤ target_points then data
  else
    let idxs := keptIndices data.values.length target_points
    { values := idxs.map (fun i => data.values.getD i 0)
      datetimes :=
        if data.datetimes.isEmpty then []
        else idxs.map (fun i => data.datetimes.getD i "") }

theorem keptIndices_mem (total target_points i : ℕ) :
    i ∈ keptIndices total target_points ↔
      i < total ∧ (i = 0 ∨ i = total - 1 ∨
        i % max 1 (total / target_points) = 0) := by
  simp [keptIndices, List.mem_filter, and_comm]

theorem keptIndices_head (total target_points : ℕ) (h : 0 < total) :
    (keptIndices total target_points).head? = some 0 := by
  obtain ⟨M, rfl⟩ : ∃ M, total = M + 1 :=
    ⟨total - 1, (Nat.succ_pred_eq_of_pos h).symm⟩
  unfold keptIndices
  rw [List.range_succ_eq_map, List.filter_cons_of_pos (by simp)]
  rfl

theorem keptIndices_getLast (total target_points : ℕ) (h : 0 < total) :
    (keptIndices total target_points).getLast? = some (total - 1) := by
  obtain ⟨M, rfl⟩ : ∃ M, total = M + 1 :=
    ⟨total - 1, (Nat.succ_pred_eq_of_pos h).symm⟩
  unfold keptIndices
  rw [List.range_succ, List.filter_append]
  have hM : (List.filter
      (fun i => decide (i = 0 ∨ i = M + 1 - 1 ∨
        i % max 1 ((M + 1) / target_points) = 0)) [M]) = [M] := by
    simp
  rw [hM, List.getLast?_concat]
  simp

/-! ## Claim C5 -/

/-- C5: when the series length N exceeds the point budget,
`apply_smart_sampling` keeps exactly the indices `{0, N−1}` together with
every multiple of `stride = max 1 (N // target)`, in increasing order; in
particular the output starts with the value at original index 0 and ends
with the value at original index N−1. -/
theorem c5_smart_sampling (data : SeriesData) (target_points : ℕ)
    (h : target_points < data.values.length) :
    (apply_smart_sampling data target_points).values.head? =
      data.values.head? ∧
    (apply_smart_sampling data target_points).values.getLast? =
      data.values.getLast? ∧
    (apply_smart_sampling data target_points).values =
      (keptIndices data.values.length target_points).map
        (fun i => data.values.getD i 0) ∧
    (∀ i, i ∈ keptIndices data.values.length target_points ↔
      i < data.values.length ∧ (i = 0 ∨ i = data.values.length - 1 ∨
        i % max 1 (data.values.length / target_points) = 0)) := by
  have hN : 0 < data.values.length := lt_of_le_of_lt (Nat.zero_le _) h
  have hnotle : ¬ data.values.length ≤ target_points := not_le.mpr h
  have hvals : (apply_smart_sampling data target_points).values =
      (keptIndices data.values.length target_points).map
        (fun i => data.values.getD i 0) := by
    unfold apply_smart_sampling
    rw [if_neg hnotle]
  refine ⟨?_, ?_, hvals, fun i => keptIndices_mem _ _ i⟩
  · rw [hvals, List.head?_map, keptIndices_head _ _ hN]
    have h0 : data.values.getD 0 0 = data.values[0] :=
      List.getD_eq_getElem data.values 0 hN
    rw [List.head?_eq_getElem?, List.getElem?_eq_getElem hN]
    simp [h0, List.getElem?_eq_getElem hN]
  · rw [hvals, List.getLast?_map, keptIndices_getLast _ _ hN]
    have hlt : data.values.length - 1 < data.values.length :=
      Nat.sub_lt hN Nat.one_pos
    have h1 : data.values.getD (data.values.length - 1) 0 =
        data.values[data.values.length - 1] :=
      List.getD_eq_getElem data.values 0 hlt
    rw [List.getLast?_eq_getElem?, List.getElem?_eq_getElem hlt]
    simp [h1, List.getElem?_eq_getElem hlt]

/-- C5 witness: a 7-point series with a budget of 3 keeps indices 0, 2, 4
and 6 (stride 2), preserving both endpoints. -/
theorem c5_smart_sampling_witness :
    (apply_smart_sampling ⟨[], [10, 11, 12, 13, 14, 15, 16]⟩ 3).values.head? =
      ([10, 11, 12, 13, 14, 15, 16] : List ℚ).head? ∧
    (apply_smart_sampling ⟨[], [10, 11, 12, 13, 14, 15, 16]⟩ 3).values.getLast? =
      ([10, 11, 12, 13, 14, 15, 16] : List ℚ).getLast? ∧
    (apply_smart_sampling ⟨[], [10, 11, 12, 13, 14, 15, 16]⟩ 3).values =
      (keptIndices 7 3).map
        (fun i => ([10, 11, 12, 13, 14, 15, 16] : List ℚ).getD i 0) :=
  ⟨(c5_smart_sampling ⟨[], [10, 11, 12, 13, 14, 15, 16]⟩ 3 (by norm_num)).1,
   (c5_smart_sampling ⟨[], [10, 11, 12, 13, 14, 15, 16]⟩ 3 (by norm_num)).2.1,
   (c5_smart_sampling ⟨[], [10, 11, 12, 13, 14, 15, 16]⟩ 3 (by norm_num)).2.2.1⟩

/-! ## Interval policy and on-read aggregation (claims C6, C7)

`determine_aggregation_interval` and `aggregate_sensor_data`
(strawberry/utils/data_aggregation.py), and the calling pipeline
`get_history_val_optimized` (strawberry/views.py, lines 114-170).

The pandas series is modelled as a list of (timestamp, value) pairs where
timestamps are whole minutes since the resample origin (midnight of the
first day, pandas' default `origin='start_day'`), so
`df.resample(f'{I}min')` assigns a row with timestamp `t` to the bucket
starting at `(t / I) * I`.  `drop_duplicates(subset=['datetime'],
keep='last')` keeps the last row per timestamp; the subsequent
`sort_index` only reorders rows and is omitted because every quantity
below (bucket membership, bucket mean, min/max timestamp) is
order-independent. -/

/-- Model of `determine_aggregation_interval`: the fixed policy table
mapping (point count, date-range days) to a bucket width in minutes. -/
def determine_aggregation_interval (data_points date_range_days : ℕ) : ℕ :=
  if date_range_days ≤ 3 then
    if 2000 < data_points then 15 else 5
  else if date_range_days ≤ 7 then
    if 5000 < data_points then 30 else 15
  else if date_range_days ≤ 31 then
    if 10000 < data_points then 60
    else if 5000 < data_points then 30
    else 15
  else
    if 10000 < data_points then 120 else 60

/-- Model of `df.drop_duplicates(subset=['datetime'], keep='last')`: keep
the last row for each timestamp, preserving relative order. -/
def dedupKeepLast (pts : List (ℕ × ℚ)) : List (ℕ × ℚ) :=
  pts.foldr (fun p acc => if acc.any (fun q => q.1 = p.1) then acc else p :: acc) []

/-- Smallest timestamp of a (nonempty) series; 0 for an empty one. -/
def minTs (pts : List (ℕ × ℚ)) : ℕ :=
  match pts with
  | [] => 0
  | p :: rest => rest.foldl (fun m q => min m q.1) p.1

/-- Largest timestamp of a series. -/
def maxTs (pts : List (ℕ × ℚ)) : ℕ :=
  match pts with
  | [] => 0
  | p :: rest => rest.foldl (fun m q => max m q.1) p.1

/-- The non-sentinel values of a series falling in bucket `b` of width
`interval`: the model of one resample group after the `-1 → NaN`
conversion (`df.loc[df['value'] == -1] = NaN`). -/
def bucketValues (pts : List (ℕ × ℚ)) (interval b : ℕ) : List ℚ :=
  (pts.filter (fun p => p.1 / interval = b ∧ p.2 ≠ -1)).map Prod.snd

/-- One output bucket: the rounded mean of its non-sentinel values, or the
sentinel −1 when the bucket has no contributing values
(`resample(...).agg('mean')`, `.round(2)`, `.fillna(-1)`). -/
def bucketAgg (pts : List (ℕ × ℚ)) (interval b : ℕ) : ℚ :=
  let vs := bucketValues pts interval b
  if vs.length = 0 then -1 else round2 (vs.sum / (vs.length : ℚ))

/-- The resample step of `aggregate_sensor_data`: dedup, then one output
row per bucket from the first bucket to the last, inclusive (pandas emits
the complete index between the extremes). -/
def aggregate_core (pts : List (ℕ × ℚ)) (interval : ℕ) : List (ℕ × ℚ) :=
  if pts = [] then []
  else
    let d := dedupKeepLast pts
    let b0 := minTs d / interval
    let b1 := maxTs d / interval
    (List.range (b1 - b0 + 1)).map
      (fun j => ((b0 + j) * interval, bucketAgg d interval (b0 + j)))

/-- Model of `aggregate_sensor_data` with a caller-supplied
`date_range_days` (the pipeline always passes it): return the data
unchanged when empty or below the 500-point threshold, otherwise resample
at the (supplied or policy-determined) interval. -/
def aggregate_sensor_data (pts : List (ℕ × ℚ)) (interval_minutes : Option ℕ)
    (date_range_days : ℕ) : List (ℕ × ℚ) :=
  if pts.length = 0 then pts
  else
    let interval := interval_minutes.getD
      (determine_aggregation_interval pts.length date_range_days)
    if pts.length < 500 then pts
    else aggregate_core pts interval

/-- Number of points left by smart sampling. -/
def sampledCount (total target_points : ℕ) : ℕ :=
  (keptIndices total target_points).length

/-- Point count reaching the aggregation stage of
`get_history_val_optimized`: smart sampling runs first whenever the raw
count exceeds `max_points`. -/
def pipeline_reduced_count (raw_count max_points : ℕ) : ℕ :=
  if max_points < raw_count then sampledCount raw_count max_points
  else raw_count

/-- Bucket width the `get_history_val_optimized` pipeline ends up using:
`aggregate_sensor_data` receives the *sampled* series, so the policy sees
the post-sampling point count. -/
def pipeline_interval (raw_count max_points date_range_days : ℕ) : ℕ :=
  determine_aggregation_interval
    (pipeline_reduced_count raw_count max_points) date_range_days

theorem foldl_min_le_start (l : List (ℕ × ℚ)) (a : ℕ) :
    l.foldl (fun m q => min m q.1) a ≤ a := by
  induction l generalizing a with
  | nil => simp
  | cons x xs ih =>
      simp only [List.foldl_cons]
      exact le_trans (ih (min a x.1)) (min_le_left _ _)

theorem foldl_min_le_mem (l : List (ℕ × ℚ)) (p : ℕ × ℚ) (hp : p ∈ l) :
    ∀ a, l.foldl (fun m q => min m q.1) a ≤ p.1 := by
  induction l with
  | nil => cases hp
  | cons x xs ih =>
      intro a
      simp only [List.foldl_cons]
      rcases List.mem_cons.mp hp with rfl | h
      · exact le_trans (foldl_min_le_start xs (min a p.1)) (min_le_right _ _)
      · exact ih h (min a x.1)

theorem le_foldl_max_start (l : List (ℕ × ℚ)) (a : ℕ) :
    a ≤ l.foldl (fun m q => max m q.1) a := by
  induction l generalizing a with
  | nil => simp
  | cons x xs ih =>
      simp only [List.foldl_cons]
      exact le_trans (le_max_left _ _) (ih (max a x.1))

theorem le_foldl_max_mem (l : List (ℕ × ℚ)) (p : ℕ × ℚ) (hp : p ∈ l) :
    ∀ a, p.1 ≤ l.foldl (fun m q => max m q.1) a := by
  induction l with
  | nil => cases hp
  | cons x xs ih =>
      intro a
      simp only [List.foldl_cons]
      rcases List.mem_cons.mp hp with rfl | h
      · exact le_trans (le_max_right _ _) (le_foldl_max_start xs (max a p.1))
      · exact ih h (max a x.1)

theorem minTs_le (pts : List (ℕ × ℚ)) (p : ℕ × ℚ) (hp : p ∈ pts) :
    minTs pts ≤ p.1 := by
  cases pts with
  | nil => cases hp
  | cons x xs =>
      unfold minTs
      rcases List.mem_cons.mp hp with rfl | h
      · exact foldl_min_le_start xs p.1
      · exact foldl_min_le_mem xs p h x.1

theorem le_maxTs (pts : List (ℕ × ℚ)) (p : ℕ × ℚ) (hp : p ∈ pts) :
    p.1 ≤ maxTs pts := by
  cases pts with
  | nil => cases hp
  | cons x xs =>
      unfold maxTs
      rcases List.mem_cons.mp hp with rfl | h
      · exact le_foldl_max_start xs p.1
      · exact le_foldl_max_mem xs p h x.1

theorem determine_aggregation_interval_pos (data_points date_range_days : ℕ) :
    0 < determine_aggregation_interval data_points date_range_days := by
  unfold determine_aggregation_interval
  split_ifs <;> norm_num

/-- Characterization of the resample step: the output index is the complete
arithmetic progression of bucket starts between the first and last bucket
(no gaps), every (deduplicated) input point's bucket appears, every output
value equals its bucket aggregate, and sentinel values never contribute to
a bucket. -/
theorem aggregate_core_spec (pts : List (ℕ × ℚ)) (interval : ℕ)
    (hI : 0 < interval) (hne : pts ≠ []) :
    ((aggregate_core pts interval).map Prod.fst =
      (List.range (maxTs (dedupKeepLast pts) / interval -
          minTs (dedupKeepLast pts) / interval + 1)).map
        (fun j => (minTs (dedupKeepLast pts) / interval + j) * interval)) ∧
    (∀ p ∈ dedupKeepLast pts,
      p.1 / interval * interval ∈ (aggregate_core pts interval).map Prod.fst) ∧
    (∀ t v, (t, v) ∈ aggregate_core pts interval →
      v = bucketAgg (dedupKeepLast pts) interval (t / interval)) ∧
    (∀ b, (-1 : ℚ) ∉ bucketValues (dedupKeepLast pts) interval b) := by
  have hcore : aggregate_core pts interval =
      (List.range (maxTs (dedupKeepLast pts) / interval -
          minTs (dedupKeepLast pts) / interval + 1)).map
        (fun j => ((minTs (dedupKeepLast pts) / interval + j) * interval,
          bucketAgg (dedupKeepLast pts) interval
            (minTs (dedupKeepLast pts) / interval + j))) := by
    unfold aggregate_core
    rw [if_neg hne]
  have hkeys : (aggregate_core pts interval).map Prod.fst =
      (List.range (maxTs (dedupKeepLast pts) / interval -
          minTs (dedupKeepLast pts) / interval + 1)).map
        (fun j => (minTs (dedupKeepLast pts) / interval + j) * interval) := by
    rw [hcore, List.map_map]
    rfl
  refine ⟨hkeys, ?_, ?_, ?_⟩
  · intro p hp
    rw [hkeys]
    have h1 : minTs (dedupKeepLast pts) / interval ≤ p.1 / interval :=
      Nat.div_le_div_right (minTs_le _ p hp)
    have h2 : p.1 / interval ≤ maxTs (dedupKeepLast pts) / interval :=
      Nat.div_le_div_right (le_maxTs _ p hp)
    refine List.mem_map.mpr
      ⟨p.1 / interval - minTs (dedupKeepLast pts) / interval,
        List.mem_range.mpr (by omega), ?_⟩
    congr 1
    omega
  · intro t v htv
    rw [hcore] at htv
    obtain ⟨j, _, hj⟩ := List.mem_map.mp htv
    have ht : t = (minTs (dedupKeepLast pts) / interval + j) * interval := by
      exact (congrArg Prod.fst hj).symm
    have hv : v = bucketAgg (dedupKeepLast pts) interval
        (minTs (dedupKeepLast pts) / interval + j) := by
      exact (congrArg Prod.snd hj).symm
    rw [hv, ht, Nat.mul_div_cancel _ hI]
  · intro b hmem
    simp only [bucketValues, List.mem_map, List.mem_filter] at hmem
    obtain ⟨p, ⟨_, hp⟩, hsnd⟩ := hmem
    rw [hsnd] at hp
    simp at hp

/-! ## Claim C7 -/

/-- C7: for every series long enough to be aggregated (≥ 500 points), the
interval aggregation emits one row per bucket over the complete index from
the first to the last bucket (no true gaps), sentinel −1 values are
excluded from every bucket mean, and a bucket with zero contributing
points carries the sentinel −1 instead of being dropped. -/
theorem c7_sentinel_and_gapless (pts : List (ℕ × ℚ)) (date_range_days : ℕ)
    (hlen : 500 ≤ pts.length) :
    aggregate_sensor_data pts none date_range_days =
      aggregate_core pts
        (determine_aggregation_interval pts.length date_range_days) ∧
    (aggregate_sensor_data pts none date_range_days).map Prod.fst =
      (List.range (maxTs (dedupKeepLast pts) /
          determine_aggregation_interval pts.length date_range_days -
        minTs (dedupKeepLast pts) /
          determine_aggregation_interval pts.length date_range_days + 1)).map
        (fun j => (minTs (dedupKeepLast pts) /
          determine_aggregation_interval pts.length date_range_days + j) *
          determine_aggregation_interval pts.length date_range_days) ∧
    (∀ p ∈ dedupKeepLast pts,
      p.1 / determine_aggregation_interval pts.length date_range_days *
        determine_aggregation_interval pts.length date_range_days ∈
        (aggregate_sensor_data pts none date_range_days).map Prod.fst) ∧
    (∀ t v, (t, v) ∈ aggregate_sensor_data pts none date_range_days →
      (bucketValues (dedupKeepLast pts)
          (determine_aggregation_interval pts.length date_range_days)
          (t / determine_aggregation_interval pts.length date_range_days) = [] ∧
        v = -1) ∨
      (bucketValues (dedupKeepLast pts)
          (determine_aggregation_interval pts.length date_range_days)
          (t / determine_aggregation_interval pts.length date_range_days) ≠ [] ∧
        v = round2 ((bucketValues (dedupKeepLast pts)
            (determine_aggregation_interval pts.length date_range_days)
            (t / determine_aggregation_interval pts.length date_range_days)).sum /
          ((bucketValues (dedupKeepLast pts)
            (determine_aggregation_interval pts.length date_range_days)
            (t / determine_aggregation_interval pts.length date_range_days)).length :
              ℚ)))) ∧
    (∀ b, (-1 : ℚ) ∉ bucketValues (dedupKeepLast pts)
      (determine_aggregation_interval pts.length date_range_days) b) := by
  set I := determine_aggregation_interval pts.length date_range_days with hIdef
  set d := dedupKeepLast pts with hddef
  have hne : pts ≠ [] := by
    intro h
    rw [h] at hlen
    simp at hlen
  have hI : 0 < I := determine_aggregation_interval_pos _ _
  have hout : aggregate_sensor_data pts none date_range_days =
      aggregate_core pts I := by
    simp only [aggregate_sensor_data, Option.getD]
    rw [if_neg (by omega), if_neg (by omega)]
  have hspec := aggregate_core_spec pts I hI hne
  refine ⟨hout, by rw [hout]; exact hspec.1, ?_, ?_, hspec.2.2.2⟩
  · intro p hp
    rw [hout]
    exact hspec.2.1 p hp
  · intro t v htv
    have hv := hspec.2.2.1 t v (by rw [← hout]; exact htv)
    by_cases hb : bucketValues d I (t / I) = []
    · left
      refine ⟨hb, ?_⟩
      rw [hv]
      simp [bucketAgg, hb]
    · right
      refine ⟨hb, ?_⟩
      rw [hv]
      have hlenb : (bucketValues d I (t / I)).length ≠ 0 := by
        simpa [List.length_eq_zero] using hb
      simp [bucketAgg, hlenb]

/-- C7 witness: a constant 500-point series at a single timestamp reaches
the resample step. -/
theorem c7_sentinel_and_gapless_witness :
    aggregate_sensor_data (List.replicate 500 ((0 : ℕ), (5 : ℚ))) none 10 =
      aggregate_core (List.replicate 500 ((0 : ℕ), (5 : ℚ)))
        (determine_aggregation_interval
          (List.replicate 500 ((0 : ℕ), (5 : ℚ))).length 10) :=
  (c7_sentinel_and_gapless (List.replicate 500 ((0 : ℕ), (5 : ℚ))) 10
    (by simp)).1

/-! ## Claim C6 -/

theorem keptIndices_50000_500 :
    keptIndices 50000 500 =
      (List.range 50000).filter (fun i => i = 0 ∨ i = 49999 ∨ i % 100 = 0) := by
  unfold keptIndices
  norm_num

/-- Smart sampling reduces 50,000 points with a budget of 500 to exactly
501 points (the 500 multiples of stride 100 plus the last index 49999). -/
theorem sampledCount_50000_500 : sampledCount 50000 500 = 501 := by
  have h1 : sampledCount 50000 500 =
      Nat.count (fun i => i = 0 ∨ i = 49999 ∨ i % 100 = 0) 50000 := by
    rw [sampledCount, keptIndices_50000_500, ← List.countP_eq_length_filter]
    rfl
  rw [h1, Nat.count_eq_card_filter_range]
  have hcongr : (Finset.range 50000).filter
        (fun i => i = 0 ∨ i = 49999 ∨ i % 100 = 0) =
      (Finset.range 50000).filter (fun i => i % 100 = 0 ∨ i = 49999) := by
    apply Finset.filter_congr
    intro i _
    constructor
    · rintro (rfl | rfl | h) <;> omega
    · rintro (h | rfl) <;> omega
  rw [hcongr, Finset.filter_or]
  have himg : (Finset.range 50000).filter (fun i => i % 100 = 0) =
      (Finset.range 500).image (fun j => j * 100) := by
    ext i
    simp only [Finset.mem_filter, Finset.mem_range, Finset.mem_image]
    constructor
    · rintro ⟨hlt, hmod⟩
      exact ⟨i / 100, by omega, by omega⟩
    · rintro ⟨j, hj, rfl⟩
      omega
  have hsing : (Finset.range 50000).filter (fun i => i = 49999) =
      ({49999} : Finset ℕ) := by
    ext i
    simp only [Finset.mem_filter, Finset.mem_range, Finset.mem_singleton]
    omega
  rw [himg, hsing]
  have hdisj : Disjoint ((Finset.range 500).image (fun j => j * 100))
      ({49999} : Finset ℕ) := by
    rw [Finset.disjoint_singleton_right]
    simp only [Finset.mem_image, Finset.mem_range]
    rintro ⟨j, _, hj⟩
    omega
  rw [Finset.card_union_of_disjoint hdisj,
    Finset.card_image_of_injective _ (fun a b hab => by omega)]
  simp

/-- C6 counterexample: for the 400-day, 50,000-point, max_points = 500
scenario, the read-reduction pipeline's interval is 60 minutes, not the
claimed 120 — smart sampling has already cut the series to 501 points by
the time the interval policy runs. -/
theorem c6_counterexample :
    pipeline_interval 50000 500 400 = 60 ∧
    pipeline_interval 50000 500 400 ≠ 120 := by
  have h : pipeline_interval 50000 500 400 = 60 := by
    unfold pipeline_interval pipeline_reduced_count
    rw [if_pos (by norm_num), sampledCount_50000_500]
    norm_num [determine_aggregation_interval]
  exact ⟨h, by rw [h]; norm_num⟩

/-- C6 (amended): in the 400-day, 50,000-point, max_points = 500 scenario,
`determine_aggregation_interval` applied to the *raw* count would give the
claimed 120-minute bucket, but the pipeline samples first (50,000 → 501
points, still above the 500-point aggregation threshold) and therefore
selects a 60-minute bucket; each output bucket then holds either the
rounded mean of its contributing non-sentinel samples or the missing
sentinel −1 when none fall in it. -/
theorem c6_scenario (pts : List (ℕ × ℚ)) (hne : pts ≠ []) :
    determine_aggregation_interval 50000 400 = 120 ∧
    sampledCount 50000 500 = 501 ∧
    500 ≤ sampledCount 50000 500 ∧
    pipeline_interval 50000 500 400 = 60 ∧
    (∀ t v, (t, v) ∈ aggregate_core pts 60 →
      (bucketValues (dedupKeepLast pts) 60 (t / 60) = [] ∧ v = -1) ∨
      (bucketValues (dedupKeepLast pts) 60 (t / 60) ≠ [] ∧
        v = round2 ((bucketValues (dedupKeepLast pts) 60 (t / 60)).sum /
          ((bucketValues (dedupKeepLast pts) 60 (t / 60)).length : ℚ)))) := by
  have hspec := aggregate_core_spec pts 60 (by norm_num) hne
  refine ⟨by norm_num [determine_aggregation_interval], sampledCount_50000_500,
    by rw [sampledCount_50000_500]; norm_num, ?_, ?_⟩
  · unfold pipeline_interval pipeline_reduced_count
    rw [if_pos (by norm_num), sampledCount_50000_500]
    norm_num [determine_aggregation_interval]
  · intro t v htv
    have hv := hspec.2.2.1 t v htv
    by_cases hb : bucketValues (dedupKeepLast pts) 60 (t / 60) = []
    · left
      refine ⟨hb, ?_⟩
      rw [hv]
      simp [bucketAgg, hb]
    · right
      refine ⟨hb, ?_⟩
      rw [hv]
      have hlenb : (bucketValues (dedupKeepLast pts) 60 (t / 60)).length ≠ 0 := by
        simpa [List.length_eq_zero] using hb
      simp [bucketAgg, hlenb]

/-- C6 witness: the binder-free scenario facts. -/
theorem c6_scenario_witness :
    determine_aggregation_interval 50000 400 = 120 ∧
    sampledCount 50000 500 = 501 ∧
    500 ≤ sampledCount 50000 500 ∧
    pipeline_interval 50000 500 400 = 60 :=
  ⟨(c6_scenario [((30 : ℕ), (7 : ℚ))] (by simp)).1,
   (c6_scenario [((30 : ℕ), (7 : ℚ))] (by simp)).2.1,
   (c6_scenario [((30 : ℕ), (7 : ℚ))] (by simp)).2.2.1,
   (c6_scenario [((30 : ℕ), (7 : ℚ))] (by simp)).2.2.2.1⟩

/-! ## Upstream fetch with retry (claim C8)

`get_history_val` (strawberry/views.py, lines 548-611).  The network is
modelled as a function from attempt number to the outcome of that attempt:
a timeout, a non-timeout request error (`requests.RequestException`), any
other unexpected exception, a JSON payload missing the `result` key, or a
successful payload with its record list.  A record is
`(datetime string or absent, data dict or null)`.  The 1-second
`time.sleep` between attempts has no observable effect in this model. -/

inductive ApiResponse where
  | timeout
  | reqError
  | unexpectedError
  | jsonMissingResult
  | ok (records : List (Option String × Option (List (String × ℚ))))
deriving DecidableEq

structure FetchResult where
  error : Option String
  datetimes : List String
  values : List ℚ
deriving DecidableEq, Repr

/-- Parsing loop over `data["result"]`: records without a `datetime` are
skipped; a null `data` yields the sentinel −1; otherwise
`record_data.get(name_value, -1)`. -/
def parseRecords (name_value : String)
    (records : List (Option String × Option (List (String × ℚ)))) :
    List String × List ℚ :=
  records.foldl (fun acc r =>
    match r.1 with
    | none => acc
    | some dt =>
        (acc.1 ++ [dt],
         acc.2 ++ [match r.2 with
           | none => -1
           | some d => (lookupKV d name_value).getD (-1)])) ([], [])

/-- The `for attempt in range(max_retries)` loop of `get_history_val`,
with the remaining number of attempts as fuel.  Returns the result
together with the number of attempts actually made. -/
def get_history_val_loop (responses : ℕ → ApiResponse) (name_value : String)
    (max_retries : ℕ) : ℕ → ℕ → FetchResult × ℕ
  | 0, attempt => (⟨none, [], []⟩, attempt)
  | fuel + 1, attempt =>
      match responses attempt with
      | ApiResponse.ok records =>
          (⟨none, (parseRecords name_value records).1,
            (parseRecords name_value records).2⟩, attempt + 1)
      | ApiResponse.jsonMissingResult =>
          (⟨some "Missing result in API response", [], []⟩, attempt + 1)
      | ApiResponse.reqError => (⟨none, [], []⟩, attempt + 1)
      | ApiResponse.unexpectedError => (⟨none, [], []⟩, attempt + 1)
      | ApiResponse.timeout =>
          if attempt < max_retries - 1 then
            get_history_val_loop responses name_value max_retries fuel (attempt + 1)
          else (⟨none, [], []⟩, attempt + 1)

/-- Model of `get_history_val` (callers use the default `max_retries=2`). -/
def get_history_val (responses : ℕ → ApiResponse) (name_value : String)
    (max_retries : ℕ) : FetchResult × ℕ :=
  get_history_val_loop responses name_value max_retries max_retries 0

/-! ## Claim C8 -/

/-- Network behaviour for the C8 counterexample: the first attempt raises
a non-timeout request error. -/
def c8responses : ℕ → ApiResponse := fun n =>
  if n = 0 then ApiResponse.reqError else ApiResponse.ok []

/-- C8 counterexample: a non-timeout request error on the first attempt is
indeed not retried, but it returns a *plain* empty result with no error
flag — not the error-flagged empty result the claim requires (only a
payload missing the `result` key is error-flagged). -/
theorem c8_counterexample :
    get_history_val c8responses "val" 2 = (⟨none, [], []⟩, 1) ∧
    (get_history_val c8responses "val" 2).1.error = none :=
  ⟨rfl, rfl⟩

/-- C8 (amended): with the default `max_retries = 2`, a timeout is retried
exactly once (two attempts total) before degrading to an empty result
without an error flag; non-timeout request errors and unexpected errors
are not retried and also return an un-flagged empty result; a payload
missing the `result` key is not retried and returns an error-flagged empty
result; a successful first attempt is parsed; at most two and at least one
attempt are ever made. -/
theorem c8_retry_discipline (responses : ℕ → ApiResponse)
    (name_value : String) :
    (responses 0 = ApiResponse.timeout → responses 1 = ApiResponse.timeout →
      get_history_val responses name_value 2 = (⟨none, [], []⟩, 2)) ∧
    (responses 0 = ApiResponse.timeout →
      ∀ records, responses 1 = ApiResponse.ok records →
        get_history_val responses name_value 2 =
          (⟨none, (parseRecords name_value records).1,
            (parseRecords name_value records).2⟩, 2)) ∧
    (responses 0 = ApiResponse.reqError →
      get_history_val responses name_value 2 = (⟨none, [], []⟩, 1)) ∧
    (responses 0 = ApiResponse.unexpectedError →
      get_history_val responses name_value 2 = (⟨none, [], []⟩, 1)) ∧
    (responses 0 = ApiResponse.jsonMissingResult →
      get_history_val responses name_value 2 =
        (⟨some "Missing result in API response", [], []⟩, 1)) ∧
    (∀ records, responses 0 = ApiResponse.ok records →
      get_history_val responses name_value 2 =
        (⟨none, (parseRecords name_value records).1,
          (parseRecords name_value records).2⟩, 1)) ∧
    (1 ≤ (get_history_val responses name_value 2).2 ∧
      (get_history_val responses name_value 2).2 ≤ 2) := by
  have hstep0 : get_history_val responses name_value 2 =
      match responses 0 with
      | ApiResponse.ok records =>
          (⟨none, (parseRecords name_value records).1,
            (parseRecords name_value records).2⟩, 1)
      | ApiResponse.jsonMissingResult =>
          (⟨some "Missing result in API response", [], []⟩, 1)
      | ApiResponse.reqError => (⟨none, [], []⟩, 1)
      | ApiResponse.unexpectedError => (⟨none, [], []⟩, 1)
      | ApiResponse.timeout => get_history_val_loop responses name_value 2 1 1 := by
    show get_history_val_loop responses name_value 2 2 0 = _
    rw [get_history_val_loop]
    rcases responses 0 <;> simp
  have hstep1 : get_history_val_loop responses name_value 2 1 1 =
      match responses 1 with
      | ApiResponse.ok records =>
          (⟨none, (parseRecords name_value records).1,
            (parseRecords name_value records).2⟩, 2)
      | ApiResponse.jsonMissingResult =>
          (⟨some "Missing result in API response", [], []⟩, 2)
      | ApiResponse.reqError => (⟨none, [], []⟩, 2)
      | ApiResponse.unexpectedError => (⟨none, [], []⟩, 2)
      | ApiResponse.timeout => (⟨none, [], []⟩, 2) := by
    rw [get_history_val_loop]
    rcases responses 1 <;> simp
  refine ⟨?_, ?_, ?_, ?_, ?_, ?_, ?_⟩
  · intro h0 h1
    rw [hstep0, h0, hstep1, h1]
  · intro h0 records h1
    rw [hstep0, h0, hstep1, h1]
  · intro h0
    rw [hstep0, h0]
  · intro h0
    rw [hstep0, h0]
  · intro h0
    rw [hstep0, h0]
  · intro records h0
    rw [hstep0, h0]
  · rw [hstep0]
    rcases h0 : responses 0 <;> simp
    rw [hstep1]
    rcases h1 : responses 1 <;> simp

/-- C8 witness: two consecutive timeouts exhaust both attempts and degrade
to an un-flagged empty result. -/
theorem c8_retry_discipline_witness :
    get_history_val (fun _ => ApiResponse.timeout) "val" 2 =
      (⟨none, [], []⟩, 2) :=
  (c8_retry_discipline (fun _ => ApiResponse.timeout) "val").1 rfl rfl

/-! ## Concurrent fetch orchestration (claim C2)

`update_compare_data` (strawberry/views.py, lines 1460-1706).  Each
requested series is a `(key, sensor_id, value_key)` tuple; here a query is
modelled as its key together with the outcome of its fetch:

* `ok r` — the future completed and `as_completed` yielded it;
* `err` — `future.result()` raised, the handler stores an empty result;
* `cancelled` — the batch deadline expired with the future not done, the
  timeout handler cancels it and stores an empty result;
* `lost` — the future completed in the race window between the
  `as_completed` timeout being raised and the `future.done()` check, so
  the phase stores nothing for it (only the final defensive fill can
  cover it).

The critical phase runs first; the remaining phase refetches every query
of `all_sensor_queries` whose key is still absent (source line 1639); the
defensive fill (source lines 1685-1690) finally inserts an empty result
for any key still missing. -/

inductive FetchOutcome where
  | ok (r : SeriesData)
  | err
  | cancelled
  | lost
deriving DecidableEq

def FetchOutcome.isOk : FetchOutcome → Bool
  | FetchOutcome.ok _ => true
  | _ => false

/-- The explicit empty result `{'datetimes': [], 'values': []}`. -/
def emptySeries : SeriesData := ⟨[], []⟩

/-- One fetch phase: fold the batch's outcomes into the accumulated result
map (dict insertion), storing an empty result for errors and cancelled
futures and nothing for lost ones. -/
def collectPhase (batch : List (String × FetchOutcome))
    (acc : List (String × SeriesData)) : List (String × SeriesData) :=
  batch.foldl (fun m ko =>
    match ko.2 with
    | FetchOutcome.ok r => insertKV m ko.1 r
    | FetchOutcome.err => insertKV m ko.1 emptySeries
    | FetchOutcome.cancelled => insertKV m ko.1 emptySeries
    | FetchOutcome.lost => m) acc

/-- The defensive default-fill pass: insert an empty result for every
expected key not already present. -/
def fillMissing (expected : List String) (m : List (String × SeriesData)) :
    List (String × SeriesData) :=
  expected.foldl (fun m' k =>
    if (lookupKV m' k).isSome then m' else insertKV m' k emptySeries) m

/-- Model of `update_compare_data`: critical phase, remaining phase over
the still-missing queries, then the defensive fill. -/
def update_compare_data (critical rest : List (String × FetchOutcome)) :
    List (String × SeriesData) :=
  let all_sensor_queries := critical ++ rest
  let afterCritical := collectPhase critical []
  let remaining := all_sensor_queries.filter
    (fun q => (lookupKV afterCritical q.1).isNone)
  let afterRest := collectPhase remaining afterCritical
  fillMissing (all_sensor_queries.map Prod.fst) afterRest

theorem fillMissing_lookup_some (expected : List String) (k : String)
    (v : SeriesData) :
    ∀ m, lookupKV m k = some v →
      lookupKV (fillMissing expected m) k = some v := by
  induction expected with
  | nil => exact fun m h => h
  | cons e rest ih =>
      intro m h
      show lookupKV (fillMissing rest
        (if (lookupKV m e).isSome then m else insertKV m e emptySeries)) k =
        some v
      by_cases he : (lookupKV m e).isSome
      · rw [if_pos he]
        exact ih m h
      · rw [if_neg he]
        apply ih
        have hek : e ≠ k := by
          intro hek
          apply he
          rw [hek, h]
          rfl
        rw [lookupKV_insertKV_ne _ _ _ _ hek]
        exact h

theorem fillMissing_lookup_mem (expected : List String) (k : String) :
    k ∈ expected → ∀ m, (lookupKV (fillMissing expected m) k).isSome := by
  induction expected with
  | nil => intro h; cases h
  | cons e rest ih =>
      intro h m
      show (lookupKV (fillMissing rest
        (if (lookupKV m e).isSome then m else insertKV m e emptySeries)) k).isSome
      by_cases he : (lookupKV m e).isSome
      · rw [if_pos he]
        rcases List.mem_cons.mp h with rfl | hmem
        · obtain ⟨v, hv⟩ := Option.isSome_iff_exists.mp he
          rw [fillMissing_lookup_some rest k v m hv]
          rfl
        · exact ih hmem m
      · rw [if_neg he]
        rcases List.mem_cons.mp h with rfl | hmem
        · rw [fillMissing_lookup_some rest k emptySeries _
            (lookupKV_insertKV_self m k emptySeries)]
          rfl
        · exact ih hmem _

theorem fillMissing_lookup_none (expected : List String) (k : String) :
    k ∈ expected → ∀ m, lookupKV m k = none →
      lookupKV (fillMissing expected m) k = some emptySeries := by
  induction expected with
  | nil => intro h; cases h
  | cons e rest ih =>
      intro h m hk
      show lookupKV (fillMissing rest
        (if (lookupKV m e).isSome then m else insertKV m e emptySeries)) k =
        some emptySeries
      by_cases hek : e = k
      · subst hek
        rw [if_neg (by rw [hk]; exact fun hc => by simp at hc)]
        exact fillMissing_lookup_some rest e emptySeries _
          (lookupKV_insertKV_self m e emptySeries)
      · have hmem : k ∈ rest := by
          rcases List.mem_cons.mp h with rfl | hmem
          · exact absurd rfl hek
          · exact hmem
        by_cases he : (lookupKV m e).isSome
        · rw [if_pos he]
          exact ih hmem m hk
        · rw [if_neg he]
          apply ih hmem
          rw [lookupKV_insertKV_ne _ _ _ _ hek]
          exact hk

theorem fillMissing_keys (expected : List String) (k : String) :
    ∀ m, (lookupKV (fillMissing expected m) k).isSome →
      (lookupKV m k).isSome ∨ k ∈ expected := by
  induction expected with
  | nil => exact fun m h => Or.inl h
  | cons e rest ih =>
      intro m h
      have h' : (lookupKV (fillMissing rest
          (if (lookupKV m e).isSome then m else insertKV m e emptySeries))
            k).isSome := h
      by_cases he : (lookupKV m e).isSome
      · rw [if_pos he] at h'
        rcases ih m h' with h'' | h''
        · exact Or.inl h''
        · exact Or.inr (List.mem_cons_of_mem _ h'')
      · rw [if_neg he] at h'
        rcases ih _ h' with h'' | h''
        · by_cases hek : e = k
          · subst hek
            exact Or.inr (List.mem_cons_self _ _)
          · rw [lookupKV_insertKV_ne _ _ _ _ hek] at h''
            exact Or.inl h''
        · exact Or.inr (List.mem_cons_of_mem _ h'')

theorem fillMissing_nodup (expected : List String) :
    ∀ m, (m.map Prod.fst).Nodup →
      ((fillMissing expected m).map Prod.fst).Nodup := by
  induction expected with
  | nil => exact fun m h => h
  | cons e rest ih =>
      intro m h
      show ((fillMissing rest
        (if (lookupKV m e).isSome then m else insertKV m e emptySeries)).map
          Prod.fst).Nodup
      by_cases he : (lookupKV m e).isSome
      · rw [if_pos he]
        exact ih m h
      · rw [if_neg he]
        exact ih _ (insertKV_nodup_keys m e emptySeries h)

theorem collectPhase_keys (batch : List (String × FetchOutcome)) (k : String) :
    ∀ acc, (lookupKV (collectPhase batch acc) k).isSome →
      (lookupKV acc k).isSome ∨ k ∈ batch.map Prod.fst := by
  induction batch with
  | nil => exact fun acc h => Or.inl h
  | cons q qs ih =>
      obtain ⟨qk, qo⟩ := q
      intro acc h
      have hins : ∀ v : SeriesData,
          (lookupKV (insertKV acc qk v) k).isSome →
          (lookupKV acc k).isSome ∨ k = qk := by
        intro v hv
        by_cases hqk : qk = k
        · exact Or.inr hqk.symm
        · rw [lookupKV_insertKV_ne _ _ _ _ hqk] at hv
          exact Or.inl hv
      rcases qo with r | _ | _ | _
      · have h' : (lookupKV (collectPhase qs (insertKV acc qk r)) k).isSome := h
        rcases ih _ h' with h'' | h''
        · rcases hins r h'' with h₃ | h₃
          · exact Or.inl h₃
          · rw [List.map_cons]
            exact Or.inr (List.mem_cons.mpr (Or.inl h₃))
        · rw [List.map_cons]
          exact Or.inr (List.mem_cons_of_mem _ h'')
      · have h' : (lookupKV (collectPhase qs (insertKV acc qk emptySeries))
            k).isSome := h
        rcases ih _ h' with h'' | h''
        · rcases hins emptySeries h'' with h₃ | h₃
          · exact Or.inl h₃
          · rw [List.map_cons]
            exact Or.inr (List.mem_cons.mpr (Or.inl h₃))
        · rw [List.map_cons]
          exact Or.inr (List.mem_cons_of_mem _ h'')
      · have h' : (lookupKV (collectPhase qs (insertKV acc qk emptySeries))
            k).isSome := h
        rcases ih _ h' with h'' | h''
        · rcases hins emptySeries h'' with h₃ | h₃
          · exact Or.inl h₃
          · rw [List.map_cons]
            exact Or.inr (List.mem_cons.mpr (Or.inl h₃))
        · rw [List.map_cons]
          exact Or.inr (List.mem_cons_of_mem _ h'')
      · have h' : (lookupKV (collectPhase qs acc) k).isSome := h
        rcases ih _ h' with h'' | h''
        · exact Or.inl h''
        · rw [List.map_cons]
          exact Or.inr (List.mem_cons_of_mem _ h'')

theorem collectPhase_nodup (batch : List (String × FetchOutcome)) :
    ∀ acc, (acc.map Prod.fst).Nodup →
      ((collectPhase batch acc).map Prod.fst).Nodup := by
  induction batch with
  | nil => exact fun acc h => h
  | cons q qs ih =>
      obtain ⟨qk, qo⟩ := q
      intro acc h
      rcases qo with r | _ | _ | _
      · exact ih _ (insertKV_nodup_keys acc qk r h)
      · exact ih _ (insertKV_nodup_keys acc qk emptySeries h)
      · exact ih _ (insertKV_nodup_keys acc qk emptySeries h)
      · exact ih _ h

theorem collectPhase_nonok (batch : List (String × FetchOutcome)) (k : String) :
    ∀ acc, (∀ o, (k, o) ∈ batch → o.isOk = false) →
      (lookupKV acc k = none ∨ lookupKV acc k = some emptySeries) →
      (lookupKV (collectPhase batch acc) k = none ∨
        lookupKV (collectPhase batch acc) k = some emptySeries) := by
  induction batch with
  | nil => exact fun acc _ hacc => hacc
  | cons q qs ih =>
      obtain ⟨qk, qo⟩ := q
      intro acc hall hacc
      have hall' : ∀ o, (k, o) ∈ qs → o.isOk = false := fun o ho =>
        hall o (List.mem_cons_of_mem _ ho)
      have hpreserve : ∀ v : SeriesData, qk ≠ k →
          (lookupKV (insertKV acc qk v) k = none ∨
            lookupKV (insertKV acc qk v) k = some emptySeries) := by
        intro v hqk
        rcases hacc with h | h
        · exact Or.inl (by rw [lookupKV_insertKV_ne _ _ _ _ hqk]; exact h)
        · exact Or.inr (by rw [lookupKV_insertKV_ne _ _ _ _ hqk]; exact h)
      rcases qo with r | _ | _ | _
      · have hqk : qk ≠ k := by
          intro hqk
          subst hqk
          have := hall (FetchOutcome.ok r) (List.mem_cons_self _ _)
          simp [FetchOutcome.isOk] at this
        exact ih _ hall' (hpreserve r hqk)
      · apply ih _ hall'
        by_cases hqk : qk = k
        · subst hqk
          exact Or.inr (lookupKV_insertKV_self acc qk emptySeries)
        · exact hpreserve emptySeries hqk
      · apply ih _ hall'
        by_cases hqk : qk = k
        · subst hqk
          exact Or.inr (lookupKV_insertKV_self acc qk emptySeries)
        · exact hpreserve emptySeries hqk
      · exact ih _ hall' hacc

/-! ## Claim C2 -/

/-- C2: for every requested query list and every combination of per-series
outcomes (success, exception, cancellation on batch timeout, or a result
lost to the done-check race), the final map of `update_compare_data`
contains exactly the requested series keys — each exactly once — and every
key none of whose fetches succeeded is mapped to the explicit empty result
rather than being absent. -/
theorem c2_fetch_completeness (critical rest : List (String × FetchOutcome)) :
    (∀ k, (lookupKV (update_compare_data critical rest) k).isSome ↔
      k ∈ (critical ++ rest).map Prod.fst) ∧
    ((update_compare_data critical rest).map Prod.fst).Nodup ∧
    (∀ k, k ∈ (critical ++ rest).map Prod.fst →
      (∀ o, (k, o) ∈ critical ++ rest → o.isOk = false) →
      lookupKV (update_compare_data critical rest) k = some emptySeries) := by
  have hresult : update_compare_data critical rest =
      fillMissing ((critical ++ rest).map Prod.fst)
        (collectPhase
          ((critical ++ rest).filter
            (fun q => (lookupKV (collectPhase critical []) q.1).isNone))
          (collectPhase critical [])) := rfl
  refine ⟨?_, ?_, ?_⟩
  · intro k
    constructor
    · intro h
      rw [hresult] at h
      rcases fillMissing_keys _ k _ h with h' | h'
      · rcases collectPhase_keys _ k _ h' with h'' | h''
        · rcases collectPhase_keys critical k [] h'' with h₃ | h₃
          · simp [lookupKV] at h₃
          · rw [List.map_append]
            exact List.mem_append_left _ h₃
        · obtain ⟨q, hq, rfl⟩ := List.mem_map.mp h''
          exact List.mem_map_of_mem _ (List.mem_of_mem_filter hq)
      · exact h'
    · intro h
      rw [hresult]
      exact fillMissing_lookup_mem _ k h _
  · rw [hresult]
    exact fillMissing_nodup _ _
      (collectPhase_nodup _ _ (collectPhase_nodup critical [] (by simp)))
  · intro k hk hall
    have hall_crit : ∀ o, (k, o) ∈ critical → o.isOk = false := fun o ho =>
      hall o (List.mem_append_left _ ho)
    have hall_rem : ∀ o,
        (k, o) ∈ (critical ++ rest).filter
          (fun q => (lookupKV (collectPhase critical []) q.1).isNone) →
        o.isOk = false := fun o ho =>
      hall o (List.mem_of_mem_filter ho)
    have h1 := collectPhase_nonok critical k [] hall_crit (Or.inl rfl)
    have h2 := collectPhase_nonok _ k _ hall_rem h1
    rw [hresult]
    rcases h2 with h2 | h2
    · exact fillMissing_lookup_none _ k hk _ h2
    · exact fillMissing_lookup_some _ k emptySeries _ h2

/-- C2 witness: a single critical series whose result is lost to the
done-check race is restored as an explicit empty result by the defensive
fill. -/
theorem c2_fetch_completeness_witness :
    lookupKV (update_compare_data [("b", FetchOutcome.lost)] []) "b" =
      some emptySeries :=
  (c2_fetch_completeness [("b", FetchOutcome.lost)] []).2.2 "b" (by simp)
    (by
      intro o ho
      simp only [List.append_nil, List.mem_singleton, Prod.mk.injEq] at ho
      rw [ho.2]
      rfl)

/-! ## Tier aggregation upsert (claim C3)

`AggregationService.aggregate_to_recent_data` (strawberry/services.py,
lines 443-529) and the `unique_together ['sensor', 'timestamp']`
constraint of `RecentData` (strawberry/models.py, lines 154-184).

A realtime row is modelled by its sensor, its timestamp's hour and minute
within the aggregation window and its value/flag (the Django query groups
by `timestamp__hour`/`timestamp__minute`).  An aggregate record's
timestamp is modelled as minutes relative to the window's day:
`hour * 60 + (minute // 5) * 5` (the source builds it with
`start_time.replace(hour=..., minute=..., second=0, microsecond=0)`).
`bulk_create(..., ignore_conflicts=True)` on a table with a unique
(sensor, timestamp) key inserts each record unless its key is already
present.  `std_deviation` is modelled by the population *variance* (its
square root, which the source stores, is irrational in general and is a
deterministic function of it). -/

structure RtRow where
  sensor : ℕ
  hour : ℕ
  minute : ℕ
  processed_value : ℚ
  quality_flag : String
deriving DecidableEq, Repr

structure RecentRecord where
  sensor : ℕ
  timestamp : ℕ
  avg_value : ℚ
  min_value : ℚ
  max_value : ℚ
  sample_count : ℕ
  variance : ℚ
  good_samples : ℕ
  suspect_samples : ℕ
  bad_samples : ℕ
  missing_samples : ℕ
deriving DecidableEq, Repr

def listMin (l : List ℚ) : ℚ :=
  match l with
  | [] => 0
  | x :: xs => xs.foldl min x

def listMax (l : List ℚ) : ℚ :=
  match l with
  | [] => 0
  | x :: xs => xs.foldl max x

/-- The distinct (hour, minute) group keys of the window's rows, in first
appearance order (the SQL GROUP BY produces one aggregate per key). -/
def groupPairs (rows : List RtRow) : List (ℕ × ℕ) :=
  rows.foldl (fun acc r =>
    if (r.hour, r.minute) ∈ acc then acc else acc ++ [(r.hour, r.minute)]) []

/-- The per-sensor aggregate records built by one run of
`aggregate_to_recent_data`: one record per distinct (hour, minute) of the
sensor's realtime rows, with the Django aggregate values and the timestamp
rounded down to the 5-minute boundary. -/
def buildRecentRecords (s : ℕ) (rows : List RtRow) : List RecentRecord :=
  let mine := rows.filter (fun r => r.sensor = s)
  (groupPairs mine).map (fun hm =>
    let grp := mine.filter (fun r => r.hour = hm.1 ∧ r.minute = hm.2)
    let vals := grp.map (fun r => r.processed_value)
    let n := grp.length
    let avg := vals.sum / (n : ℚ)
    { sensor := s
      timestamp := hm.1 * 60 + (hm.2 / 5) * 5
      avg_value := avg
      min_value := listMin vals
      max_value := listMax vals
      sample_count := n
      variance := (vals.map (fun v => (v - avg) ^ 2)).sum / (n : ℚ)
      good_samples := (grp.filter (fun r => r.quality_flag = "good")).length
      suspect_samples := (grp.filter (fun r => r.quality_flag = "suspect")).length
      bad_samples := (grp.filter (fun r => r.quality_flag = "bad")).length
      missing_samples := (grp.filter (fun r => r.quality_flag = "missing")).length })

/-- Does the table already hold a row with this record's
(sensor, timestamp) key? -/
def hasKey (t : List RecentRecord) (r : RecentRecord) : Bool :=
  t.any (fun x => x.sensor = r.sensor ∧ x.timestamp = r.timestamp)

/-- Model of `bulk_create(records, ignore_conflicts=True)` against the
unique (sensor, timestamp) constraint: insert each record whose key is not
yet present, silently skip the rest. -/
def bulk_create_ignore_conflicts (table new : List RecentRecord) :
    List RecentRecord :=
  new.foldl (fun t r => if hasKey t r then t else t ++ [r]) table

/-- Model of `aggregate_to_recent_data`: per-sensor aggregation of the
window's realtime rows, bulk-inserted with conflicts ignored. -/
def aggregate_to_recent_data (sensors : List ℕ) (rows : List RtRow)
    (table : List RecentRecord) : List RecentRecord :=
  sensors.foldl
    (fun t s => bulk_create_ignore_conflicts t (buildRecentRecords s rows))
    table

theorem hasKey_append (t t' : List RecentRecord) (r : RecentRecord) :
    hasKey (t ++ t') r = (hasKey t r || hasKey t' r) := by
  simp [hasKey, List.any_append]

theorem hasKey_self_append (t : List RecentRecord) (r : RecentRecord) :
    hasKey (t ++ [r]) r = true := by
  rw [hasKey_append]
  have : hasKey [r] r = true := by simp [hasKey]
  rw [this, Bool.or_true]

theorem bulk_create_hasKey_mono (new : List RecentRecord)
    (r : RecentRecord) :
    ∀ t, hasKey t r = true →
      hasKey (bulk_create_ignore_conflicts t new) r = true := by
  induction new with
  | nil => exact fun t h => h
  | cons x xs ih =>
      intro t h
      show hasKey (bulk_create_ignore_conflicts
        (if hasKey t x then t else t ++ [x]) xs) r = true
      by_cases hx : hasKey t x
      · rw [if_pos hx]
        exact ih t h
      · rw [if_neg hx]
        apply ih
        rw [hasKey_append, h, Bool.true_or]

theorem bulk_create_all_keys (new : List RecentRecord) :
    ∀ t, ∀ r ∈ new,
      hasKey (bulk_create_ignore_conflicts t new) r = true := by
  induction new with
  | nil => intro t r hr; cases hr
  | cons x xs ih =>
      intro t r hr
      show hasKey (bulk_create_ignore_conflicts
        (if hasKey t x then t else t ++ [x]) xs) r = true
      rcases List.mem_cons.mp hr with rfl | hr'
      · by_cases hx : hasKey t r
        · rw [if_pos hx]
          exact bulk_create_hasKey_mono xs r t hx
        · rw [if_neg hx]
          exact bulk_create_hasKey_mono xs r _ (hasKey_self_append t r)
      · by_cases hx : hasKey t x
        · rw [if_pos hx]
          exact ih t r hr'
        · rw [if_neg hx]
          exact ih _ r hr'

theorem bulk_create_noop (new : List RecentRecord) :
    ∀ t, (∀ r ∈ new, hasKey t r = true) →
      bulk_create_ignore_conflicts t new = t := by
  induction new with
  | nil => exact fun t _ => rfl
  | cons x xs ih =>
      intro t hall
      show bulk_create_ignore_conflicts
        (if hasKey t x then t else t ++ [x]) xs = t
      rw [if_pos (hall x (List.mem_cons_self _ _))]
      exact ih t (fun r hr => hall r (List.mem_cons_of_mem _ hr))

theorem hasKey_iff_mem_keys (t : List RecentRecord) (r : RecentRecord) :
    hasKey t r = true ↔
      (r.sensor, r.timestamp) ∈ t.map (fun x => (x.sensor, x.timestamp)) := by
  simp only [hasKey, List.any_eq_true, List.mem_map, decide_eq_true_eq,
    Prod.mk.injEq]

theorem bulk_create_keys_nodup (new : List RecentRecord) :
    ∀ t, ((t.map (fun x => (x.sensor, x.timestamp))).Nodup) →
      (((bulk_create_ignore_conflicts t new).map
        (fun x => (x.sensor, x.timestamp))).Nodup) := by
  induction new with
  | nil => exact fun t h => h
  | cons x xs ih =>
      intro t h
      show (((bulk_create_ignore_conflicts
        (if hasKey t x then t else t ++ [x]) xs).map
          (fun x => (x.sensor, x.timestamp))).Nodup)
      by_cases hx : hasKey t x
      · rw [if_pos hx]
        exact ih t h
      · rw [if_neg hx]
        apply ih
        rw [List.map_append]
        have hnot : (x.sensor, x.timestamp) ∉
            t.map (fun y => (y.sensor, y.timestamp)) := by
          intro hmem
          exact hx ((hasKey_iff_mem_keys t x).mpr hmem)
        simp [List.nodup_append, h, hnot]

theorem aggregate_hasKey_mono (sensors : List ℕ) (rows : List RtRow)
    (r : RecentRecord) :
    ∀ t, hasKey t r = true →
      hasKey (aggregate_to_recent_data sensors rows t) r = true := by
  induction sensors with
  | nil => exact fun t h => h
  | cons s ss ih =>
      intro t h
      exact ih _ (bulk_create_hasKey_mono _ r t h)

theorem aggregate_all_keys (sensors : List ℕ) (rows : List RtRow) :
    ∀ t, ∀ s ∈ sensors, ∀ r ∈ buildRecentRecords s rows,
      hasKey (aggregate_to_recent_data sensors rows t) r = true := by
  induction sensors with
  | nil => intro t s hs; cases hs
  | cons s₀ ss ih =>
      intro t s hs r hr
      rcases List.mem_cons.mp hs with rfl | hs'
      · exact aggregate_hasKey_mono ss rows r _
          (bulk_create_all_keys _ t r hr)
      · exact ih _ s hs' r hr

theorem aggregate_noop (sensors : List ℕ) (rows : List RtRow) :
    ∀ t, (∀ s ∈ sensors, ∀ r ∈ buildRecentRecords s rows,
        hasKey t r = true) →
      aggregate_to_recent_data sensors rows t = t := by
  induction sensors with
  | nil => exact fun t _ => rfl
  | cons s₀ ss ih =>
      intro t hall
      show aggregate_to_recent_data ss rows
        (bulk_create_ignore_conflicts t (buildRecentRecords s₀ rows)) = t
      rw [bulk_create_noop _ t (hall s₀ (List.mem_cons_self _ _))]
      exact ih t (fun s hs => hall s (List.mem_cons_of_mem _ hs))

/-! ## Claim C3 -/

/-- C3: starting from any table whose (sensor, timestamp) keys are unique,
one aggregation run preserves key uniqueness (at most one aggregate row
per (sensor, tier, timestamp)), rerunning over the same finer-tier input
changes nothing, and any number of reruns gives the same table as a single
run (no duplicate buckets, no value drift). -/
theorem c3_idempotent_aggregation (sensors : List ℕ) (rows : List RtRow)
    (table : List RecentRecord)
    (h : (table.map (fun x => (x.sensor, x.timestamp))).Nodup) :
    (((aggregate_to_recent_data sensors rows table).map
      (fun x => (x.sensor, x.timestamp))).Nodup) ∧
    aggregate_to_recent_data sensors rows
        (aggregate_to_recent_data sensors rows table) =
      aggregate_to_recent_data sensors rows table ∧
    (∀ n, (fun t => aggregate_to_recent_data sensors rows t)^[n + 1] table =
      aggregate_to_recent_data sensors rows table) := by
  have hnodup : ∀ t,
      ((t.map (fun x => (x.sensor, x.timestamp))).Nodup) →
      (((aggregate_to_recent_data sensors rows t).map
        (fun x => (x.sensor, x.timestamp))).Nodup) := by
    intro t ht
    induction sensors generalizing t with
    | nil => exact ht
    | cons s₀ ss ih =>
        exact ih _ (bulk_create_keys_nodup _ t ht)
  have hidem : aggregate_to_recent_data sensors rows
      (aggregate_to_recent_data sensors rows table) =
      aggregate_to_recent_data sensors rows table :=
    aggregate_noop sensors rows _
      (fun s hs r hr => aggregate_all_keys sensors rows table s hs r hr)
  refine ⟨hnodup table h, hidem, ?_⟩
  intro n
  induction n with
  | zero => simp
  | succ m ihm =>
      rw [Function.iterate_succ_apply', ihm]
      exact hidem

/-- C3 witness: one sensor, one realtime row, empty table — a second run
leaves the table produced by the first run unchanged. -/
theorem c3_idempotent_aggregation_witness :
    aggregate_to_recent_data [1] [⟨1, 10, 2, 5, "good"⟩]
        (aggregate_to_recent_data [1] [⟨1, 10, 2, 5, "good"⟩] []) =
      aggregate_to_recent_data [1] [⟨1, 10, 2, 5, "good"⟩] [] :=
  (c3_idempotent_aggregation [1] [⟨1, 10, 2, 5, "good"⟩] [] (by simp)).2.1

end Harumiki
